import Mathlib

/-!
Verification of the GitHub-Events-Pipeline repository.

The repository ships a SQL schema with analytic views (`raw_events`,
`events_clean`, `pipeline_runs`, `v_events_per_hour`,
`v_event_type_distribution`, `v_top_repos`, `v_top_actors`,
`v_hourly_activity_with_avg`), a React dashboard (`App.tsx`, `Admin.tsx`) and
a small API helper (`getJSON`).  The ingestion core (Fetcher, Normalizer,
Idempotent Writer, Run Tracker, Scheduler/Driver) is not present in the
sources; it is modelled here from the specification, while the SQL views and
the frontend components are embedded directly from their sources.

Timestamps (`TIMESTAMPTZ`) are modelled as integers counting seconds since
the Unix epoch, in UTC; `DATE` values are modelled as integer day indices
since 1970-01-01.  SQL tables are modelled as lists of typed rows, with the
primary-key discipline proved as a theorem rather than assumed.
-/

namespace GitHubEventsPipeline


/-! ## Data model: table rows (from the SQL schema in the sources) -/

/-- A row of the `raw_events` table:
`event_id TEXT PRIMARY KEY, raw_payload JSONB NOT NULL, created_at
TIMESTAMPTZ, ingested_at TIMESTAMPTZ NOT NULL`.  The opaque JSONB payload is
modelled as a string. -/
structure RawRow where
  event_id : String
  raw_payload : String
  created_at : Option Int
  ingested_at : Int
deriving DecidableEq, Repr

/-- A row of the `events_clean` table:
`event_id TEXT PRIMARY KEY, event_type TEXT NOT NULL, actor_id BIGINT,
actor_login TEXT, repo_id BIGINT, repo_name TEXT, created_at TIMESTAMPTZ NOT
NULL, hour_bucket TIMESTAMPTZ NOT NULL, day_bucket DATE NOT NULL,
ingested_at TIMESTAMPTZ NOT NULL`. -/
structure CleanRow where
  event_id : String
  event_type : String
  actor_id : Option Int
  actor_login : Option String
  repo_id : Option Int
  repo_name : Option String
  created_at : Int
  hour_bucket : Int
  day_bucket : Int
  ingested_at : Int
deriving DecidableEq, Repr

/-- Modelled from the spec: one raw event record as delivered by the
upstream API (the Fetcher's output type; the ingestor source is absent from
the repository).  Upstream may omit any field other than the event id. -/
structure RawRecord where
  id : String
  event_type : Option String
  actor_id : Option Int
  actor_login : Option String
  repo_id : Option Int
  repo_name : Option String
  created_at : Option Int
  payload : String
deriving DecidableEq, Repr

/-! ## Bucketing (UTC truncation) -/

/-- `created_at` truncated downward to the hour, in UTC: with timestamps as
seconds since the epoch this is the largest multiple of 3600 not exceeding
the timestamp. -/
def hourBucket (t : Int) : Int := t - t % 3600

/-- `created_at` truncated downward to the day, in UTC, as a day index since
1970-01-01 (`DATE`). -/
def dayBucket (t : Int) : Int := t / 86400

/-! ## Normalizer (modelled from the spec) -/

/-- Modelled from the spec: the per-record error of the Event Normalizer,
naming the missing or invalid field (the Normalizer source is absent from
the repository). -/
inductive NormalizationError where
  | missingField (field : String)
deriving DecidableEq, Repr

/-- Modelled from the spec: the Event Normalizer, a pure total function from
one raw record to either a clean row or a `NormalizationError`.
`event_type` and `created_at` are mandatory; actor and repo fields are
best-effort and stay `none` when absent.  `hour_bucket` and `day_bucket` are
UTC truncations of `created_at`.  (The Normalizer source is absent from the
repository.) -/
def normalize (now : Int) (r : RawRecord) : Except NormalizationError CleanRow :=
  match r.event_type with
  | none => .error (.missingField "event_type")
  | some ty =>
    match r.created_at with
    | none => .error (.missingField "created_at")
    | some t =>
      .ok { event_id := r.id
            event_type := ty
            actor_id := r.actor_id
            actor_login := r.actor_login
            repo_id := r.repo_id
            repo_name := r.repo_name
            created_at := t
            hour_bucket := hourBucket t
            day_bucket := dayBucket t
            ingested_at := now }

/-- Whether a raw record normalizes successfully (depends only on the
presence of the mandatory fields). -/
def normOk (r : RawRecord) : Bool := r.event_type.isSome && r.created_at.isSome

/-! ## Idempotent Writer (modelled from the spec): upsert-by-primary-key

The Writer source is absent from the repository; the spec fixes its
contract: "persists raw and clean records using an upsert-by-primary-key
discipline so repeated ingestion of the same event is a no-op", with the
design choice "insert if absent, otherwise overwrite the payload/derived
fields but preserve original `ingested_at`".  Tables are lists of rows; the
key is the `event_id` column (`TEXT PRIMARY KEY` in the schema). -/

/-- Modelled from the spec: upsert-by-primary-key into a list-modelled
table.  If a row with key `k` is already stored, it is overwritten in place
by `keep old` (the incoming fields, preserving the stored row's
`ingested_at`); otherwise the new row `fresh` is appended. -/
def upsertG {α : Type} (kid : α → String) (k : String) (keep : α → α) (fresh : α)
    (tbl : List α) : List α :=
  match tbl.find? (fun x => kid x == k) with
  | some old => tbl.map (fun x => if kid x == k then keep old else x)
  | none => tbl ++ [fresh]

/-- A table stores some row with primary key `k`. -/
def hasKey {α : Type} (kid : α → String) (k : String) (tbl : List α) : Prop :=
  ∃ y ∈ tbl, kid y = k

/-! ## Batch ingestion (modelled from the spec)

A batch of upstream records is ingested by folding the per-record upsert
over the table, guarded by an activity test (`raw_events` stores every
record; `events_clean` stores only the records the Normalizer accepts). -/

/-- Modelled from the spec: one ingestion pass of a batch `B` over a single
table, upserting each record `r` with key `rid r` whenever `act r` holds
(the Scheduler/Driver and Writer sources are absent from the repository). -/
def ingestG {α ρ : Type} (kid : α → String) (rid : ρ → String) (act : ρ → Bool)
    (keepF : ρ → α → α) (freshF : ρ → α) (B : List ρ) (tbl : List α) : List α :=
  B.foldl (fun t r => if act r then upsertG kid (rid r) (keepF r) (freshF r) t else t) tbl

/-! ## The persistent store and concrete ingestion -/

/-- The two event tables of the relational store. -/
structure DB where
  raw_events : List RawRow
  events_clean : List CleanRow
deriving DecidableEq, Repr

/-- The `raw_events` row written for a record, with the given `ingested_at`. -/
def rawRowOf (rec : RawRecord) (ing : Int) : RawRow :=
  { event_id := rec.id
    raw_payload := rec.payload
    created_at := rec.created_at
    ingested_at := ing }

/-- The `events_clean` row written for a record, with the given
`ingested_at`.  Only used (by the guarded ingest) when `normOk rec` holds,
in which case it agrees with the Normalizer's output. -/
def cleanRowOf (rec : RawRecord) (ing : Int) : CleanRow :=
  { event_id := rec.id
    event_type := rec.event_type.getD ""
    actor_id := rec.actor_id
    actor_login := rec.actor_login
    repo_id := rec.repo_id
    repo_name := rec.repo_name
    created_at := rec.created_at.getD 0
    hour_bucket := hourBucket (rec.created_at.getD 0)
    day_bucket := dayBucket (rec.created_at.getD 0)
    ingested_at := ing }

/-- Modelled from the spec: ingest a batch into `raw_events` — every fetched
record is upserted by `event_id` (preserving stored `ingested_at`, per the
Writer's overwrite policy). -/
def ingestRaw (now : Int) (B : List RawRecord) (tbl : List RawRow) : List RawRow :=
  ingestG RawRow.event_id RawRecord.id (fun _ => true)
    (fun rec old => rawRowOf rec old.ingested_at) (fun rec => rawRowOf rec now) B tbl

/-- Modelled from the spec: ingest a batch into `events_clean` — only the
records accepted by the Normalizer are upserted by `event_id`; malformed
records are skipped, not fatal. -/
def ingestClean (now : Int) (B : List RawRecord) (tbl : List CleanRow) : List CleanRow :=
  ingestG CleanRow.event_id RawRecord.id normOk
    (fun rec old => cleanRowOf rec old.ingested_at) (fun rec => cleanRowOf rec now) B tbl

/-- Modelled from the spec: the write phase of one ingestion cycle, over
both tables. -/
def ingestBatch (now : Int) (B : List RawRecord) (db : DB) : DB :=
  { raw_events := ingestRaw now B db.raw_events
    events_clean := ingestClean now B db.events_clean }

/-! ## PipelineRun lifecycle (modelled from the spec) -/

/-- `status TEXT NOT NULL, -- STARTED | SUCCESS | FAILED` -/
inductive RunStatus where
  | STARTED
  | SUCCESS
  | FAILED
deriving DecidableEq, Repr

/-- A row of the `pipeline_runs` table:
`run_id UUID PRIMARY KEY, started_at TIMESTAMPTZ NOT NULL, finished_at
TIMESTAMPTZ, status TEXT NOT NULL, rows_fetched INT NOT NULL DEFAULT 0,
rows_inserted INT NOT NULL DEFAULT 0, error_message TEXT`. -/
structure PipelineRun where
  run_id : String
  started_at : Int
  finished_at : Option Int
  status : RunStatus
  rows_fetched : Nat
  rows_inserted : Nat
  error_message : Option String
deriving DecidableEq, Repr

/-- Modelled from the spec: the run row created at cycle start —
`STARTED (initial, created with started_at=now, rows_fetched=0,
rows_inserted=0)` (the Run Tracker source is absent from the repository). -/
def initRun (id : String) (t0 : Int) : PipelineRun :=
  { run_id := id
    started_at := t0
    finished_at := none
    status := .STARTED
    rows_fetched := 0
    rows_inserted := 0
    error_message := none }

/-- Modelled from the spec: the Fetcher's outcome for one cycle — either
the fetched records, or a `FetchError` carrying the count already fetched
before retries were exhausted (the Fetcher source is absent from the
repository). -/
inductive FetchResult where
  | ok (records : List RawRecord)
  | fetchError (fetchedSoFar : Nat) (message : String)

/-- Modelled from the spec: the single finalization of a run row.  On a
`FetchError` the run turns FAILED with `rows_fetched` the partial count and
`rows_inserted = 0`; on fetch success it turns SUCCESS with `rows_fetched`
the number of records and `rows_inserted` the number of records the
Normalizer accepted (skipped records do not fail the run). -/
def finalizeRun (r : PipelineRun) (t1 : Int) (fr : FetchResult) : PipelineRun :=
  match fr with
  | .fetchError n msg =>
      { r with status := .FAILED
               finished_at := some t1
               rows_fetched := n
               rows_inserted := 0
               error_message := some msg }
  | .ok recs =>
      { r with status := .SUCCESS
               finished_at := some t1
               rows_fetched := recs.length
               rows_inserted := recs.countP normOk
               error_message := none }

/-- The result of one scheduled cycle: the updated store and the finalized
run row. -/
structure CycleResult where
  db : DB
  run : PipelineRun
deriving Repr

/-- Modelled from the spec: one orchestrated ingestion cycle.  On
`FetchError` the run is finalized FAILED and the store is untouched (no
write phase); on fetch success the batch is ingested and the run finalized
SUCCESS (the Scheduler/Driver source is absent from the repository). -/
def runCycle (id : String) (t0 t1 : Int) (fr : FetchResult) (db : DB) : CycleResult :=
  match fr with
  | .fetchError n msg =>
      { db := db, run := finalizeRun (initRun id t0) t1 (.fetchError n msg) }
  | .ok recs =>
      { db := ingestBatch t1 recs db, run := finalizeRun (initRun id t0) t1 (.ok recs) }

/-- Modelled from the spec: the only legal mutation of a run row — a
STARTED row is finalized exactly once. -/
def RunStep (r r' : PipelineRun) : Prop :=
  r.status = .STARTED ∧ ∃ t1 fr, r' = finalizeRun r t1 fr

/-- The run states reachable from the freshly created STARTED row. -/
def RunReachable (id : String) (t0 : Int) (r : PipelineRun) : Prop :=
  Relation.ReflTransGen RunStep (initRun id t0) r

/-! ## SQL aggregation views (embedded from the schema in the sources)

A SQL `GROUP BY k` with `COUNT(*)` over `events_clean` is modelled as one
output row per distinct key value (SQL groups NULLs together, so nullable
columns use `Option` keys), carrying the number of matching rows; `ORDER BY`
is an insertion sort by the ordering column. -/

/-- `SELECT key, COUNT(*) FROM events_clean GROUP BY key`: one row per
distinct key value, in first-occurrence order (before any `ORDER BY`). -/
def groupCount {κ : Type} [DecidableEq κ] (key : CleanRow → κ) (T : List CleanRow) :
    List (κ × Nat) :=
  (T.map key).dedup.map (fun k => (k, T.countP (fun e => decide (key e = k))))

/-- `CREATE OR REPLACE VIEW v_events_per_hour AS SELECT hour_bucket,
COUNT(*) AS total_events FROM events_clean GROUP BY hour_bucket ORDER BY
hour_bucket;` -/
def v_events_per_hour (T : List CleanRow) : List (Int × Nat) :=
  List.insertionSort (fun a b => a.1 ≤ b.1) (groupCount CleanRow.hour_bucket T)

/-- `CREATE OR REPLACE VIEW v_event_type_distribution AS SELECT event_type,
COUNT(*) AS total FROM events_clean GROUP BY event_type ORDER BY total
DESC;` -/
def v_event_type_distribution (T : List CleanRow) : List (String × Nat) :=
  List.insertionSort (fun a b => b.2 ≤ a.2) (groupCount CleanRow.event_type T)

/-- `CREATE OR REPLACE VIEW v_top_repos AS SELECT repo_name, COUNT(*) AS
total_events FROM events_clean GROUP BY repo_name ORDER BY total_events
DESC;` -/
def v_top_repos (T : List CleanRow) : List (Option String × Nat) :=
  List.insertionSort (fun a b => b.2 ≤ a.2) (groupCount CleanRow.repo_name T)

/-- `CREATE OR REPLACE VIEW v_top_actors AS SELECT actor_login, COUNT(*) AS
total_events FROM events_clean GROUP BY actor_login ORDER BY total_events
DESC;` -/
def v_top_actors (T : List CleanRow) : List (Option String × Nat) :=
  List.insertionSort (fun a b => b.2 ≤ a.2) (groupCount CleanRow.actor_login T)

/-- A row of `v_hourly_activity_with_avg`.  `overall_avg` is an exact
rational, as Postgres `AVG` over integers yields `numeric`. -/
structure HourlyAvgRow where
  hour_bucket : Int
  total_events : Nat
  overall_avg : ℚ
  is_anomaly : Bool
deriving DecidableEq, Repr

/-- The `hourly` CTE: `SELECT hour_bucket, COUNT(*) AS total_events FROM
events_clean GROUP BY hour_bucket`. -/
def hourlyGroups (T : List CleanRow) : List (Int × Nat) :=
  groupCount CleanRow.hour_bucket T

/-- `AVG(total_events) OVER ()`: the arithmetic mean of `total_events` over
the rows of the `hourly` CTE. -/
def hourlyAvg (T : List CleanRow) : ℚ :=
  (((hourlyGroups T).map Prod.snd).sum : ℚ) / ((hourlyGroups T).length : ℚ)

/-- One output row of the view: `1.8` is exact as the rational `9/5`, and
the `CASE WHEN total_events > (AVG(total_events) OVER () * 1.8)` flag is a
strict comparison. -/
def mkHourlyRow (avg : ℚ) (p : Int × Nat) : HourlyAvgRow :=
  { hour_bucket := p.1
    total_events := p.2
    overall_avg := avg
    is_anomaly := decide ((p.2 : ℚ) > avg * (9/5)) }

/-- `CREATE OR REPLACE VIEW v_hourly_activity_with_avg AS WITH hourly AS
(SELECT hour_bucket, COUNT(*) AS total_events FROM events_clean GROUP BY
hour_bucket) SELECT hour_bucket, total_events, AVG(total_events) OVER () AS
overall_avg, CASE WHEN total_events > (AVG(total_events) OVER () * 1.8)
THEN TRUE ELSE FALSE END AS is_anomaly FROM hourly ORDER BY hour_bucket
DESC;` -/
def v_hourly_activity_with_avg (T : List CleanRow) : List HourlyAvgRow :=
  List.insertionSort (fun a b => b.hour_bucket ≤ a.hour_bucket)
    ((hourlyGroups T).map (mkHourlyRow (hourlyAvg T)))

/-! ## Frontend API helper (embedded from `getJSON` in the sources) -/

/-- The part of a `fetch` response `getJSON` inspects: the HTTP status and
the body (read as text by `res.text()`, parsed by `res.json()`). -/
structure HttpResponse where
  status : Nat
  body : String
deriving DecidableEq, Repr

/-- `res.ok`: the status is in the 200–299 range. -/
def respOk (res : HttpResponse) : Bool := 200 ≤ res.status && res.status ≤ 299

/-- `getJSON` from the sources: on an ok response it returns the parsed
JSON body (`res.json()`, modelled by the `parseJson` parameter, which may
itself fail on a malformed body); otherwise it reads the body text and
throws ``new Error(`HTTP ${res.status} ${path}: ${text}`)``. -/
def getJSON {α : Type} (parseJson : String → Except String α) (path : String)
    (res : HttpResponse) : Except String α :=
  if respOk res then parseJson res.body
  else .error ("HTTP " ++ toString res.status ++ " " ++ path ++ ": " ++ res.body)

/-- `needle` occurs contiguously inside `hay`. -/
def containsStr (needle hay : String) : Prop := ∃ a b, hay = a ++ needle ++ b

/-! ## Dashboard loader (embedded from `App` in the sources) -/

/-- `type LoadState<T> = { loading: boolean; error?: string; data?: T }` -/
structure LoadState (α : Type) where
  loading : Bool
  error : Option String
  data : Option α
deriving DecidableEq, Repr

/-- The five dashboard panel states set by `App`'s data-loading effect. -/
structure DashboardState (α : Type) where
  topRepos : LoadState α
  eventTypes : LoadState α
  topActors : LoadState α
  hourly : LoadState α
  runs : LoadState α
deriving DecidableEq, Repr

/-- `Promise.all` over the five metrics requests: all five values when every
request resolves, otherwise the rejection of a failed request. -/
def promiseAll5 {α : Type} (r e a h pr : Except String α) :
    Except String (α × α × α × α × α) := do
  let x1 ← r
  let x2 ← e
  let x3 ← a
  let x4 ← h
  let x5 ← pr
  pure (x1, x2, x3, x4, x5)

/-- The dashboard-loading effect from `App`: on success each panel gets its
data with `loading: false`; on any rejection the single `catch` sets every
panel to `{ loading: false, error: msg }`. -/
def loadDashboard {α : Type} (r e a h pr : Except String α) : DashboardState α :=
  match promiseAll5 r e a h pr with
  | .ok (x1, x2, x3, x4, x5) =>
      { topRepos := ⟨false, none, some x1⟩
        eventTypes := ⟨false, none, some x2⟩
        topActors := ⟨false, none, some x3⟩
        hourly := ⟨false, none, some x4⟩
        runs := ⟨false, none, some x5⟩ }
  | .error msg =>
      { topRepos := ⟨false, some msg, none⟩
        eventTypes := ⟨false, some msg, none⟩
        topActors := ⟨false, some msg, none⟩
        hourly := ⟨false, some msg, none⟩
        runs := ⟨false, some msg, none⟩ }

/-! ## Admin table browser (embedded from `Admin` in the sources) -/

/-- The `Admin` component's state hooks.  `rows` is the last fetched page;
only its length matters to pagination, but it is kept as a list of opaque
row values. -/
structure AdminState (ρ : Type) where
  authed : Bool
  tables : List String
  table : String
  rows : List ρ
  offset : Int
  error : String
deriving DecidableEq, Repr

/-- `const limit = 50;` -/
def adminLimit : Int := 50

/-- The user/effect events that mutate the `Admin` component's state. -/
inductive AdminAction (ρ : Type) where
  | login
  | logout
  | tablesLoaded (ts : List String)
  | selectTable (name : String)
  | prevClick
  | nextClick
  | rowsLoaded (rs : List ρ)

/-- The `Admin` component's state transitions, from the sources: `login`
sets the auth flag; `logout` clears everything and resets `offset` to 0;
`loadTables` stores the table list, selects the first table and resets
`offset`; selecting a table resets `offset`; Prev sets
`Math.max(0, offset - limit)` and is disabled (a no-op) when `offset === 0`;
Next adds `limit` and is disabled when the last page has fewer than `limit`
rows; a row fetch stores the returned page. -/
def adminStep {ρ : Type} (s : AdminState ρ) (act : AdminAction ρ) : AdminState ρ :=
  match act with
  | .login => { s with authed := true }
  | .logout =>
      { s with authed := false, tables := [], rows := [], table := "", offset := 0, error := "" }
  | .tablesLoaded ts => { s with tables := ts, table := ts.headD "", offset := 0, error := "" }
  | .selectTable n => { s with table := n, offset := 0 }
  | .prevClick => if s.offset = 0 then s else { s with offset := max 0 (s.offset - adminLimit) }
  | .nextClick =>
      if s.rows.length < 50 then s else { s with offset := s.offset + adminLimit }
  | .rowsLoaded rs => { s with rows := rs, error := "" }

/-- The component's initial state: `offset` starts at 0; the auth flag comes
from `localStorage`. -/
def initAdmin (ρ : Type) (storedAuth : Bool) : AdminState ρ :=
  { authed := storedAuth, tables := [], table := "", rows := [], offset := 0, error := "" }

/-! ## Concrete sample data (used to instantiate the theorems) -/

/-- A well-formed upstream record. -/
def sampleRecord : RawRecord :=
  { id := "e1"
    event_type := some "PushEvent"
    actor_id := some 1
    actor_login := some "alice"
    repo_id := some 2
    repo_name := some "octo/repo"
    created_at := some 1704071000
    payload := "\x7b\x7d" }

/-- An upstream record missing the mandatory `event_type`. -/
def badRecord : RawRecord :=
  { id := "e2"
    event_type := none
    actor_id := none
    actor_login := none
    repo_id := none
    repo_name := none
    created_at := some 1704071000
    payload := "\x7b\x7d" }

/-- A small `events_clean` table: two events in hour bucket 7200, one in
hour bucket 3600. -/
def sampleClean : List CleanRow :=
  [ { event_id := "a", event_type := "PushEvent", actor_id := none,
      actor_login := some "alice", repo_id := none, repo_name := some "octo/repo",
      created_at := 7300, hour_bucket := 7200, day_bucket := 0, ingested_at := 0 },
    { event_id := "b", event_type := "ForkEvent", actor_id := none,
      actor_login := some "bob", repo_id := none, repo_name := some "octo/repo",
      created_at := 7400, hour_bucket := 7200, day_bucket := 0, ingested_at := 0 },
    { event_id := "c", event_type := "PushEvent", actor_id := none,
      actor_login := some "alice", repo_id := none, repo_name := none,
      created_at := 3700, hour_bucket := 3600, day_bucket := 0, ingested_at := 0 } ]

/-- An `Admin` state sitting on page 3 (`offset = 100`) with an empty last
page. -/
def adminAt100 : AdminState Unit :=
  { authed := true, tables := ["raw_events"], table := "raw_events",
    rows := [], offset := 100, error := "" }

/-! ## Theorems -/

theorem hourBucket_dvd (t : Int) : (3600 : Int) ∣ hourBucket t :=
  ⟨t / 3600, by unfold hourBucket; omega⟩

theorem hourBucket_le (t : Int) : hourBucket t ≤ t := by
  unfold hourBucket; omega

theorem lt_hourBucket_add (t : Int) : t < hourBucket t + 3600 := by
  unfold hourBucket; omega

theorem dayBucket_le (t : Int) : 86400 * dayBucket t ≤ t := by
  unfold dayBucket; omega

theorem lt_dayBucket_add (t : Int) : t < 86400 * (dayBucket t + 1) := by
  unfold dayBucket; omega

theorem normOk_iff (now : Int) (r : RawRecord) :
    normOk r = true ↔ ∃ c, normalize now r = .ok c := by
  unfold normOk normalize
  cases h1 : r.event_type <;> cases h2 : r.created_at <;> simp

theorem upsertG_of_find_some {α : Type} {kid : α → String} {k : String} {keep : α → α}
    {fresh : α} {tbl : List α} {old : α}
    (h : tbl.find? (fun x => kid x == k) = some old) :
    upsertG kid k keep fresh tbl = tbl.map (fun x => if kid x == k then keep old else x) := by
  unfold upsertG
  rw [h]

theorem upsertG_of_find_none {α : Type} {kid : α → String} {k : String} {keep : α → α}
    {fresh : α} {tbl : List α}
    (h : tbl.find? (fun x => kid x == k) = none) :
    upsertG kid k keep fresh tbl = tbl ++ [fresh] := by
  unfold upsertG
  rw [h]

theorem upsertG_idem {α : Type} (kid : α → String) (k : String) (keep : α → α)
    (fresh1 fresh2 : α) (tbl : List α)
    (hkeep : ∀ x, kid (keep x) = k) (hfresh : kid fresh1 = k)
    (hkk : ∀ x, keep (keep x) = keep x) (hkf : keep fresh1 = fresh1) :
    upsertG kid k keep fresh2 (upsertG kid k keep fresh1 tbl)
      = upsertG kid k keep fresh1 tbl := by
  cases h : tbl.find? (fun x => kid x == k) with
  | some old =>
      have hold : kid old = k := by
        have := List.find?_some h
        simpa using this
      rw [upsertG_of_find_some h]
      have hcomp : ((fun x => kid x == k) ∘ (fun x => if kid x == k then keep old else x))
          = fun x => kid x == k := by
        funext x
        by_cases hx : kid x = k
        · simp [hx, hkeep]
        · simp [hx]
      have hfind2 : (tbl.map (fun x => if kid x == k then keep old else x)).find?
          (fun x => kid x == k) = some (keep old) := by
        rw [List.find?_map, hcomp, h]
        simp [hold]
      rw [upsertG_of_find_some hfind2, List.map_map]
      apply List.map_congr_left
      intro a _
      by_cases ha : kid a = k
      · simp [ha, hkeep, hkk]
      · simp [ha]
  | none =>
      have hnot : ∀ x ∈ tbl, ¬ (kid x = k) := by
        intro x hx
        have := List.find?_eq_none.mp h x hx
        simpa using this
      rw [upsertG_of_find_none h]
      have hfind2 : (tbl ++ [fresh1]).find? (fun x => kid x == k) = some fresh1 := by
        rw [List.find?_append, h]
        simp [hfresh]
      rw [upsertG_of_find_some hfind2, List.map_append]
      have h1 : tbl.map (fun x => if kid x == k then keep fresh1 else x) = tbl := by
        conv_rhs => rw [← List.map_id tbl]
        apply List.map_congr_left
        intro a ha
        simp [hnot a ha]
      have h2 : [fresh1].map (fun x => if kid x == k then keep fresh1 else x) = [fresh1] := by
        simp [hfresh, hkf]
      rw [h1, h2]

theorem hasKey_upsertG_self {α : Type} (kid : α → String) (k : String) (keep : α → α)
    (fresh : α) (tbl : List α)
    (hkeep : ∀ x, kid (keep x) = k) (hfresh : kid fresh = k) :
    hasKey kid k (upsertG kid k keep fresh tbl) := by
  cases h : tbl.find? (fun x => kid x == k) with
  | some old =>
      rw [upsertG_of_find_some h]
      have hold : kid old = k := by
        have := List.find?_some h
        simpa using this
      refine ⟨keep old, ?_, hkeep old⟩
      have hm : (if kid old == k then keep old else old)
          ∈ tbl.map (fun x => if kid x == k then keep old else x) :=
        List.mem_map_of_mem _ (List.mem_of_find?_eq_some h)
      simpa [hold] using hm
  | none =>
      rw [upsertG_of_find_none h]
      exact ⟨fresh, List.mem_append_right _ (List.mem_singleton_self _), hfresh⟩

theorem hasKey_upsertG {α : Type} (kid : α → String) (k' k : String) (keep : α → α)
    (fresh : α) (tbl : List α)
    (hkeep : ∀ x, kid (keep x) = k)
    (h : hasKey kid k' tbl) :
    hasKey kid k' (upsertG kid k keep fresh tbl) := by
  obtain ⟨y, hy, hyk⟩ := h
  cases h2 : tbl.find? (fun x => kid x == k) with
  | some old =>
      rw [upsertG_of_find_some h2]
      refine ⟨if kid y == k then keep old else y, List.mem_map_of_mem _ hy, ?_⟩
      by_cases hc : kid y = k
      · rw [if_pos (by simp [hc]), hkeep, ← hc, hyk]
      · rw [if_neg (by simp [hc]), hyk]
  | none =>
      rw [upsertG_of_find_none h2]
      exact ⟨y, List.mem_append_left _ hy, hyk⟩

theorem upsertG_comm {α : Type} (kid : α → String) (k1 k2 : String)
    (keep1 : α → α) (fresh1 : α) (keep2 : α → α) (fresh2 : α) (tbl : List α)
    (hne : k1 ≠ k2)
    (hpresent : hasKey kid k1 tbl)
    (hkeep1 : ∀ x, kid (keep1 x) = k1) (hkeep2 : ∀ x, kid (keep2 x) = k2)
    (hfresh2 : kid fresh2 = k2) :
    upsertG kid k2 keep2 fresh2 (upsertG kid k1 keep1 fresh1 tbl)
      = upsertG kid k1 keep1 fresh1 (upsertG kid k2 keep2 fresh2 tbl) := by
  obtain ⟨y, hy, hyk⟩ := hpresent
  have hsome1 : ∃ old1, tbl.find? (fun x => kid x == k1) = some old1 := by
    rcases h : tbl.find? (fun x => kid x == k1) with _ | old1
    · have hnone := List.find?_eq_none.mp h y hy
      rw [hyk] at hnone
      simp at hnone
    · exact ⟨old1, rfl⟩
  obtain ⟨old1, h1⟩ := hsome1
  have hold1 : kid old1 = k1 := by
    have := List.find?_some h1
    simpa using this
  have hcomp1 : ∀ old : α, kid old = k1 →
      ((fun x => kid x == k2) ∘ (fun x => if kid x == k1 then keep1 old else x))
        = fun x => kid x == k2 := by
    intro old hold
    funext x
    by_cases hx : kid x = k1
    · simp [hx, hkeep1, hne, Ne.symm hne]
    · simp [hx]
  cases h2 : tbl.find? (fun x => kid x == k2) with
  | some old2 =>
      have hold2 : kid old2 = k2 := by
        have := List.find?_some h2
        simpa using this
      have hfind21 : (tbl.map (fun x => if kid x == k1 then keep1 old1 else x)).find?
          (fun x => kid x == k2) = some old2 := by
        rw [List.find?_map, hcomp1 old1 hold1, h2]
        simp [hold2, Ne.symm hne]
      have hcomp2 : ((fun x => kid x == k1) ∘ (fun x => if kid x == k2 then keep2 old2 else x))
          = fun x => kid x == k1 := by
        funext x
        by_cases hx : kid x = k2
        · simp [hx, hkeep2, hne, Ne.symm hne]
        · simp [hx]
      have hfind12 : (tbl.map (fun x => if kid x == k2 then keep2 old2 else x)).find?
          (fun x => kid x == k1) = some old1 := by
        rw [List.find?_map, hcomp2, h1]
        simp [hold1, hne]
      rw [upsertG_of_find_some h1, upsertG_of_find_some hfind21,
          upsertG_of_find_some h2, upsertG_of_find_some hfind12,
          List.map_map, List.map_map]
      apply List.map_congr_left
      intro a _
      by_cases ha1 : kid a = k1
      · simp [ha1, hne, hkeep1, Ne.symm hne]
      · by_cases ha2 : kid a = k2
        · simp [ha1, ha2, hkeep2, hne, Ne.symm hne]
        · simp [ha1, ha2]
  | none =>
      have hfind21 : (tbl.map (fun x => if kid x == k1 then keep1 old1 else x)).find?
          (fun x => kid x == k2) = none := by
        rw [List.find?_map, hcomp1 old1 hold1, h2]
        rfl
      have hfind12 : (tbl ++ [fresh2]).find? (fun x => kid x == k1) = some old1 := by
        rw [List.find?_append, h1]
        rfl
      rw [upsertG_of_find_some h1, upsertG_of_find_none hfind21,
          upsertG_of_find_none h2, upsertG_of_find_some hfind12,
          List.map_append]
      have : [fresh2].map (fun x => if kid x == k1 then keep1 old1 else x) = [fresh2] := by
        simp [hfresh2, Ne.symm hne]
      rw [this]

theorem nodupKeys_upsertG {α : Type} (kid : α → String) (k : String) (keep : α → α)
    (fresh : α) (tbl : List α)
    (hkeep : ∀ x, kid (keep x) = k) (hfresh : kid fresh = k)
    (hnd : (tbl.map kid).Nodup) :
    ((upsertG kid k keep fresh tbl).map kid).Nodup := by
  cases h : tbl.find? (fun x => kid x == k) with
  | some old =>
      rw [upsertG_of_find_some h, List.map_map]
      have hcomp : (kid ∘ fun x => if kid x == k then keep old else x) = kid := by
        funext x
        by_cases hx : kid x = k
        · simp [hx, hkeep]
        · simp [hx]
      rw [hcomp]
      exact hnd
  | none =>
      rw [upsertG_of_find_none h, List.map_append]
      have hk : k ∉ tbl.map kid := by
        intro hmem
        obtain ⟨y, hy, hyk⟩ := List.mem_map.mp hmem
        have := List.find?_eq_none.mp h y hy
        rw [hyk] at this
        simp at this
      simp [List.nodup_append, hnd, hfresh]
      intro y hy hyk
      exact hk (hyk ▸ List.mem_map_of_mem kid hy)

theorem length_upsertG_of_hasKey {α : Type} (kid : α → String) (k : String) (keep : α → α)
    (fresh : α) (tbl : List α)
    (h : hasKey kid k tbl) :
    (upsertG kid k keep fresh tbl).length = tbl.length := by
  obtain ⟨y, hy, hyk⟩ := h
  cases h2 : tbl.find? (fun x => kid x == k) with
  | some old => rw [upsertG_of_find_some h2, List.length_map]
  | none =>
      have := List.find?_eq_none.mp h2 y hy
      rw [hyk] at this
      simp at this

theorem ingestG_nil {α ρ : Type} (kid : α → String) (rid : ρ → String) (act : ρ → Bool)
    (keepF : ρ → α → α) (freshF : ρ → α) (tbl : List α) :
    ingestG kid rid act keepF freshF [] tbl = tbl := rfl

theorem ingestG_cons {α ρ : Type} (kid : α → String) (rid : ρ → String) (act : ρ → Bool)
    (keepF : ρ → α → α) (freshF : ρ → α) (r : ρ) (B : List ρ) (tbl : List α) :
    ingestG kid rid act keepF freshF (r :: B) tbl
      = ingestG kid rid act keepF freshF B
          (if act r then upsertG kid (rid r) (keepF r) (freshF r) tbl else tbl) := rfl

theorem hasKey_ingestG {α ρ : Type} (kid : α → String) (rid : ρ → String) (act : ρ → Bool)
    (keepF : ρ → α → α) (freshF : ρ → α) (k : String) (B : List ρ) (tbl : List α)
    (hkeep : ∀ r, ∀ x, kid (keepF r x) = rid r)
    (h : hasKey kid k tbl) :
    hasKey kid k (ingestG kid rid act keepF freshF B tbl) := by
  induction B generalizing tbl with
  | nil => exact h
  | cons r B ih =>
      rw [ingestG_cons]
      by_cases ha : act r = true
      · rw [if_pos ha]
        exact ih _ (hasKey_upsertG kid k (rid r) (keepF r) (freshF r) tbl (hkeep r) h)
      · rw [if_neg ha]
        exact ih _ h

theorem upsertG_ingestG_comm {α ρ : Type} (kid : α → String) (rid : ρ → String)
    (act : ρ → Bool) (keepF : ρ → α → α) (freshF : ρ → α)
    (k1 : String) (keep1 : α → α) (fresh1 : α) (B : List ρ) (tbl : List α)
    (hk1 : hasKey kid k1 tbl)
    (hB : ∀ r ∈ B, rid r ≠ k1)
    (hkeep1 : ∀ x, kid (keep1 x) = k1)
    (hkeep : ∀ r, ∀ x, kid (keepF r x) = rid r)
    (hfresh : ∀ r, kid (freshF r) = rid r) :
    upsertG kid k1 keep1 fresh1 (ingestG kid rid act keepF freshF B tbl)
      = ingestG kid rid act keepF freshF B (upsertG kid k1 keep1 fresh1 tbl) := by
  induction B generalizing tbl with
  | nil => rfl
  | cons r B ih =>
      rw [ingestG_cons, ingestG_cons]
      by_cases ha : act r = true
      · rw [if_pos ha, if_pos ha]
        rw [ih _ (hasKey_upsertG kid k1 (rid r) (keepF r) (freshF r) tbl (hkeep r) hk1)
              (fun s hs => hB s (List.mem_cons_of_mem r hs))]
        congr 1
        exact (upsertG_comm kid k1 (rid r) keep1 fresh1 (keepF r) (freshF r) tbl
          (Ne.symm (hB r (List.mem_cons_self r B))) hk1 hkeep1 (hkeep r) (hfresh r)).symm
      · rw [if_neg ha, if_neg ha]
        exact ih _ hk1 (fun s hs => hB s (List.mem_cons_of_mem r hs))

theorem ingestG_idem {α ρ : Type} (kid : α → String) (rid : ρ → String) (act : ρ → Bool)
    (keepF : ρ → α → α) (freshF1 freshF2 : ρ → α) (B : List ρ) (tbl : List α)
    (hnd : (B.map rid).Nodup)
    (hkeep : ∀ r, ∀ x, kid (keepF r x) = rid r)
    (hfresh1 : ∀ r, kid (freshF1 r) = rid r)
    (hkk : ∀ r x, keepF r (keepF r x) = keepF r x)
    (hkf : ∀ r, keepF r (freshF1 r) = freshF1 r) :
    ingestG kid rid act keepF freshF2 B (ingestG kid rid act keepF freshF1 B tbl)
      = ingestG kid rid act keepF freshF1 B tbl := by
  induction B generalizing tbl with
  | nil => rfl
  | cons r B ih =>
      have hnd' : (∀ s ∈ B, ¬ rid s = rid r) ∧ (B.map rid).Nodup := by
        simpa [List.nodup_cons] using hnd
      have hndB : (B.map rid).Nodup := hnd'.2
      have hrB : ∀ s ∈ B, rid s ≠ rid r := hnd'.1
      rw [ingestG_cons, ingestG_cons]
      by_cases ha : act r = true
      · rw [if_pos ha, if_pos ha]
        have hk1 : hasKey kid (rid r) (upsertG kid (rid r) (keepF r) (freshF1 r) tbl) :=
          hasKey_upsertG_self kid (rid r) (keepF r) (freshF1 r) tbl (hkeep r) (hfresh1 r)
        rw [upsertG_ingestG_comm kid rid act keepF freshF1 (rid r) (keepF r) (freshF2 r)
              B _ hk1 hrB (hkeep r) hkeep hfresh1]
        rw [upsertG_idem kid (rid r) (keepF r) (freshF1 r) (freshF2 r) tbl
              (hkeep r) (hfresh1 r) (hkk r) (hkf r)]
        exact ih _ hndB
      · rw [if_neg ha, if_neg ha]
        exact ih _ hndB

theorem nodupKeys_ingestG {α ρ : Type} (kid : α → String) (rid : ρ → String) (act : ρ → Bool)
    (keepF : ρ → α → α) (freshF : ρ → α) (B : List ρ) (tbl : List α)
    (hkeep : ∀ r, ∀ x, kid (keepF r x) = rid r)
    (hfresh : ∀ r, kid (freshF r) = rid r)
    (hnd : (tbl.map kid).Nodup) :
    ((ingestG kid rid act keepF freshF B tbl).map kid).Nodup := by
  induction B generalizing tbl with
  | nil => exact hnd
  | cons r B ih =>
      rw [ingestG_cons]
      by_cases ha : act r = true
      · rw [if_pos ha]
        exact ih _ (nodupKeys_upsertG kid (rid r) (keepF r) (freshF r) tbl
          (hkeep r) (hfresh r) hnd)
      · rw [if_neg ha]
        exact ih _ hnd

theorem normalize_eq_cleanRowOf (now : Int) (rec : RawRecord) (h : normOk rec = true) :
    normalize now rec = .ok (cleanRowOf rec now) := by
  unfold normOk at h
  rcases h1 : rec.event_type with _ | ty
  · rw [h1] at h; simp at h
  · rcases h2 : rec.created_at with _ | t
    · rw [h2] at h; simp at h
    · unfold normalize cleanRowOf
      rw [h1, h2]
      simp

theorem ingestRaw_idem (n1 n2 : Int) (B : List RawRecord) (tbl : List RawRow)
    (hnd : (B.map RawRecord.id).Nodup) :
    ingestRaw n2 B (ingestRaw n1 B tbl) = ingestRaw n1 B tbl := by
  unfold ingestRaw
  exact ingestG_idem _ _ _ _ _ _ B tbl hnd
    (fun r x => rfl) (fun r => rfl) (fun r x => rfl) (fun r => rfl)

theorem ingestClean_idem (n1 n2 : Int) (B : List RawRecord) (tbl : List CleanRow)
    (hnd : (B.map RawRecord.id).Nodup) :
    ingestClean n2 B (ingestClean n1 B tbl) = ingestClean n1 B tbl := by
  unfold ingestClean
  exact ingestG_idem _ _ _ _ _ _ B tbl hnd
    (fun r x => rfl) (fun r => rfl) (fun r x => rfl) (fun r => rfl)

theorem ingestBatch_idem (n1 n2 : Int) (B : List RawRecord) (db : DB)
    (hnd : (B.map RawRecord.id).Nodup) :
    ingestBatch n2 B (ingestBatch n1 B db) = ingestBatch n1 B db := by
  unfold ingestBatch
  simp [ingestRaw_idem n1 n2 B _ hnd, ingestClean_idem n1 n2 B _ hnd]

theorem groupCount_keys {κ : Type} [DecidableEq κ] (key : CleanRow → κ) (T : List CleanRow) :
    (groupCount key T).map Prod.fst = (T.map key).dedup := by
  unfold groupCount
  rw [List.map_map]
  have hc : (Prod.fst ∘ fun k : κ => (k, T.countP (fun e => decide (key e = k)))) = id := rfl
  rw [hc, List.map_id]

theorem groupCount_mem {κ : Type} [DecidableEq κ] (key : CleanRow → κ) (T : List CleanRow)
    (p : κ × Nat) (hp : p ∈ groupCount key T) :
    p.2 = T.countP (fun e => decide (key e = p.1)) := by
  unfold groupCount at hp
  obtain ⟨k, _, rfl⟩ := List.mem_map.mp hp
  rfl

theorem sorted_insertionSort_of {β : Type} (le : β → β → Prop) [DecidableRel le]
    (htot : ∀ a b, le a b ∨ le b a)
    (htrans : ∀ a b c, le a b → le b c → le a c) (l : List β) :
    List.Sorted le (List.insertionSort le l) := by
  haveI : IsTotal β le := ⟨htot⟩
  haveI : IsTrans β le := ⟨htrans⟩
  exact List.sorted_insertionSort le l

theorem sortedView_counts {κ : Type} [DecidableEq κ] (key : CleanRow → κ)
    (le : κ × Nat → κ × Nat → Prop) [DecidableRel le] (T : List CleanRow) (p : κ × Nat)
    (hp : p ∈ List.insertionSort le (groupCount key T)) :
    p.2 = T.countP (fun e => decide (key e = p.1)) :=
  groupCount_mem key T p ((List.perm_insertionSort le _).mem_iff.mp hp)

theorem sortedView_keys_nodup {κ : Type} [DecidableEq κ] (key : CleanRow → κ)
    (le : κ × Nat → κ × Nat → Prop) [DecidableRel le] (T : List CleanRow) :
    ((List.insertionSort le (groupCount key T)).map Prod.fst).Nodup :=
  ((List.perm_insertionSort le _).map Prod.fst).nodup_iff.mpr
    (groupCount_keys key T ▸ List.nodup_dedup _)

theorem sortedView_keys_mem {κ : Type} [DecidableEq κ] (key : CleanRow → κ)
    (le : κ × Nat → κ × Nat → Prop) [DecidableRel le] (T : List CleanRow) (k : κ) :
    k ∈ (List.insertionSort le (groupCount key T)).map Prod.fst ↔ k ∈ T.map key := by
  rw [((List.perm_insertionSort le _).map Prod.fst).mem_iff, groupCount_keys,
      List.mem_dedup]

/-! ## Admin pagination invariant helpers -/

theorem adminStep_offset_inv {ρ : Type} (s : AdminState ρ) (act : AdminAction ρ)
    (h : 0 ≤ s.offset ∧ s.offset % 50 = 0) :
    0 ≤ (adminStep s act).offset ∧ (adminStep s act).offset % 50 = 0 := by
  cases act with
  | login => exact h
  | logout => exact ⟨le_refl 0, rfl⟩
  | tablesLoaded ts => exact ⟨le_refl 0, rfl⟩
  | selectTable n => exact ⟨le_refl 0, rfl⟩
  | rowsLoaded rs => exact h
  | prevClick =>
      by_cases h0 : s.offset = 0
      · simp only [adminStep, if_pos h0]
        exact h
      · simp only [adminStep, if_neg h0, adminLimit]
        rw [max_eq_right (by omega : (0 : Int) ≤ s.offset - 50)]
        omega
  | nextClick =>
      by_cases h0 : s.rows.length < 50
      · simp only [adminStep, if_pos h0]
        exact h
      · simp only [adminStep, if_neg h0, adminLimit]
        omega

theorem adminFold_offset_inv {ρ : Type} (acts : List (AdminAction ρ)) (s : AdminState ρ)
    (h : 0 ≤ s.offset ∧ s.offset % 50 = 0) :
    0 ≤ (acts.foldl adminStep s).offset ∧ (acts.foldl adminStep s).offset % 50 = 0 := by
  induction acts generalizing s with
  | nil => exact h
  | cons a acts ih => exact ih _ (adminStep_offset_inv s a h)

/-! ## Claim theorems -/

/-- C1: Ingestion is idempotent — re-running the full ingest of a batch of
upstream events (distinct `event_id`s, as upstream supplies globally unique
ids) leaves `raw_events` and `events_clean` with the same rows as after the
first run; each table keeps at most one row per `event_id`; and re-ingesting
an already-stored `event_id` overwrites in place, never adding a row. -/
theorem ingestion_idempotent (n1 n2 : Int) (B : List RawRecord) (db : DB)
    (hB : (B.map RawRecord.id).Nodup)
    (hraw : (db.raw_events.map RawRow.event_id).Nodup)
    (hclean : (db.events_clean.map CleanRow.event_id).Nodup) :
    ingestBatch n2 B (ingestBatch n1 B db) = ingestBatch n1 B db
    ∧ ((ingestBatch n1 B db).raw_events.map RawRow.event_id).Nodup
    ∧ ((ingestBatch n1 B db).events_clean.map CleanRow.event_id).Nodup
    ∧ (∀ rec : RawRecord, hasKey RawRow.event_id rec.id db.raw_events →
        (ingestRaw n1 [rec] db.raw_events).length = db.raw_events.length)
    ∧ (∀ rec : RawRecord, normOk rec = true →
        hasKey CleanRow.event_id rec.id db.events_clean →
        (ingestClean n1 [rec] db.events_clean).length = db.events_clean.length) := by
  refine ⟨ingestBatch_idem n1 n2 B db hB, ?_, ?_, ?_, ?_⟩
  · exact nodupKeys_ingestG _ _ _ _ _ B db.raw_events
      (fun r x => rfl) (fun r => rfl) hraw
  · exact nodupKeys_ingestG _ _ _ _ _ B db.events_clean
      (fun r x => rfl) (fun r => rfl) hclean
  · intro rec hk
    show (ingestG _ _ _ _ _ [rec] db.raw_events).length = _
    rw [ingestG_cons, ingestG_nil, if_pos rfl]
    exact length_upsertG_of_hasKey _ _ _ _ _ hk
  · intro rec hok hk
    show (ingestG _ _ _ _ _ [rec] db.events_clean).length = _
    rw [ingestG_cons, ingestG_nil, if_pos hok]
    exact length_upsertG_of_hasKey _ _ _ _ _ hk

theorem ingestion_idempotent_witness :
    ingestBatch 1 [sampleRecord] (ingestBatch 0 [sampleRecord] ⟨[], []⟩)
      = ingestBatch 0 [sampleRecord] ⟨[], []⟩ :=
  (ingestion_idempotent 0 1 [sampleRecord] ⟨[], []⟩
    (by decide) List.nodup_nil List.nodup_nil).1

/-- C2: Every run state reachable in the run lifecycle satisfies
`rows_inserted ≤ rows_fetched`; `finished_at` is set iff the status is
terminal (SUCCESS or FAILED); the status is one of STARTED, SUCCESS,
FAILED; and a run makes exactly one STARTED→terminal transition, after
which no further transition applies. -/
theorem pipeline_run_lifecycle (id : String) (t0 : Int) (r : PipelineRun)
    (h : RunReachable id t0 r) :
    r.rows_inserted ≤ r.rows_fetched
    ∧ (r.finished_at ≠ none ↔ (r.status = .SUCCESS ∨ r.status = .FAILED))
    ∧ (r.status = .STARTED ∨ r.status = .SUCCESS ∨ r.status = .FAILED)
    ∧ (∀ r1 r2, RunStep r1 r2 →
        r1.status = .STARTED ∧ (r2.status = .SUCCESS ∨ r2.status = .FAILED)
          ∧ ∀ r3, ¬ RunStep r2 r3) := by
  have hstep : ∀ r1 r2 : PipelineRun, RunStep r1 r2 →
      r1.status = .STARTED ∧ (r2.status = .SUCCESS ∨ r2.status = .FAILED)
        ∧ ∀ r3, ¬ RunStep r2 r3 := by
    intro r1 r2 hs
    obtain ⟨hst, t1, fr, rfl⟩ := hs
    refine ⟨hst, ?_, ?_⟩
    · cases fr with
      | ok recs => exact Or.inl rfl
      | fetchError n m => exact Or.inr rfl
    · intro r3 hs3
      obtain ⟨hst3, _⟩ := hs3
      cases fr with
      | ok recs => simp [finalizeRun] at hst3
      | fetchError n m => simp [finalizeRun] at hst3
  induction h with
  | refl =>
      refine ⟨le_refl 0, ?_, Or.inl rfl, hstep⟩
      simp [initRun]
  | tail hsub hlast ih =>
      obtain ⟨hst, t1, fr, rfl⟩ := hlast
      cases fr with
      | ok recs =>
          refine ⟨?_, by simp [finalizeRun], Or.inr (Or.inl rfl), hstep⟩
          simpa [finalizeRun] using List.countP_le_length (l := recs) (p := normOk)
      | fetchError n m =>
          exact ⟨by simp [finalizeRun], by simp [finalizeRun], Or.inr (Or.inr rfl), hstep⟩

theorem pipeline_run_lifecycle_witness :
    (initRun "run-1" 0).rows_inserted ≤ (initRun "run-1" 0).rows_fetched
    ∧ ((initRun "run-1" 0).finished_at ≠ none
        ↔ ((initRun "run-1" 0).status = .SUCCESS ∨ (initRun "run-1" 0).status = .FAILED))
    ∧ ((initRun "run-1" 0).status = .STARTED ∨ (initRun "run-1" 0).status = .SUCCESS
        ∨ (initRun "run-1" 0).status = .FAILED)
    ∧ (∀ r1 r2, RunStep r1 r2 →
        r1.status = .STARTED ∧ (r2.status = .SUCCESS ∨ r2.status = .FAILED)
          ∧ ∀ r3, ¬ RunStep r2 r3) :=
  pipeline_run_lifecycle "run-1" 0 (initRun "run-1" 0) Relation.ReflTransGen.refl

/-- C3: For every clean event the Normalizer produces, `hour_bucket` is
`created_at` truncated downward to the hour in UTC and `day_bucket` is
`created_at` truncated downward to the day in UTC (each the unique aligned
value within one hour/day below the timestamp); both are functions of
`created_at`; and at the boundary `2024-01-01T00:00:00Z` (epoch second
1704067200) the hour bucket is the timestamp itself and the day bucket is
day 19723, i.e. 2024-01-01. -/
theorem bucketing_correct (now : Int) (rec : RawRecord) (c : CleanRow)
    (h : normalize now rec = .ok c) :
    c.hour_bucket = hourBucket c.created_at
    ∧ c.day_bucket = dayBucket c.created_at
    ∧ (3600 : Int) ∣ c.hour_bucket
    ∧ c.hour_bucket ≤ c.created_at ∧ c.created_at < c.hour_bucket + 3600
    ∧ 86400 * c.day_bucket ≤ c.created_at ∧ c.created_at < 86400 * (c.day_bucket + 1)
    ∧ hourBucket 1704067200 = 1704067200
    ∧ dayBucket 1704067200 = 19723 := by
  have hok : normOk rec = true := (normOk_iff now rec).mpr ⟨c, h⟩
  rw [normalize_eq_cleanRowOf now rec hok] at h
  injection h with h
  subst h
  exact ⟨rfl, rfl, hourBucket_dvd _, hourBucket_le _, lt_hourBucket_add _,
    dayBucket_le _, lt_dayBucket_add _, by decide, by decide⟩

theorem bucketing_correct_witness :
    (cleanRowOf sampleRecord 0).hour_bucket = hourBucket (cleanRowOf sampleRecord 0).created_at
    ∧ (cleanRowOf sampleRecord 0).day_bucket = dayBucket (cleanRowOf sampleRecord 0).created_at
    ∧ (3600 : Int) ∣ (cleanRowOf sampleRecord 0).hour_bucket
    ∧ (cleanRowOf sampleRecord 0).hour_bucket ≤ (cleanRowOf sampleRecord 0).created_at
    ∧ (cleanRowOf sampleRecord 0).created_at < (cleanRowOf sampleRecord 0).hour_bucket + 3600
    ∧ 86400 * (cleanRowOf sampleRecord 0).day_bucket ≤ (cleanRowOf sampleRecord 0).created_at
    ∧ (cleanRowOf sampleRecord 0).created_at
        < 86400 * ((cleanRowOf sampleRecord 0).day_bucket + 1)
    ∧ hourBucket 1704067200 = 1704067200
    ∧ dayBucket 1704067200 = 19723 :=
  bucketing_correct 0 sampleRecord (cleanRowOf sampleRecord 0) rfl

/-- C4: The Normalizer is a pure total function from one raw record to
either a clean event or a `NormalizationError` naming the missing field —
it never throws; `event_type` and `created_at` are mandatory while absent
actor/repo fields pass through as nulls; and a cycle whose fetch succeeded
finalizes SUCCESS no matter how many records fail normalization, so
normalization errors alone never produce a FAILED run. -/
theorem normalizer_pure_nonfatal (now : Int) (rec : RawRecord) :
    ((∃ c, normalize now rec = .ok c) ∨ (∃ e, normalize now rec = .error e))
    ∧ (rec.event_type = none → normalize now rec = .error (.missingField "event_type"))
    ∧ (∀ ty, rec.event_type = some ty → rec.created_at = none →
        normalize now rec = .error (.missingField "created_at"))
    ∧ (∀ ty t, rec.event_type = some ty → rec.created_at = some t →
        normalize now rec = .ok
          { event_id := rec.id, event_type := ty, actor_id := rec.actor_id,
            actor_login := rec.actor_login, repo_id := rec.repo_id,
            repo_name := rec.repo_name, created_at := t, hour_bucket := hourBucket t,
            day_bucket := dayBucket t, ingested_at := now })
    ∧ (∀ (id : String) (t0 t1 : Int) (recs : List RawRecord) (db : DB),
        (runCycle id t0 t1 (.ok recs) db).run.status = .SUCCESS) := by
  refine ⟨?_, ?_, ?_, ?_, ?_⟩
  · cases hn : normalize now rec with
    | ok c => exact Or.inl ⟨c, rfl⟩
    | error e => exact Or.inr ⟨e, rfl⟩
  · intro h1
    simp [normalize, h1]
  · intro ty h1 h2
    simp [normalize, h1, h2]
  · intro ty t h1 h2
    simp [normalize, h1, h2]
  · intro id t0 t1 recs db
    rfl

theorem normalizer_pure_nonfatal_witness :
    normalize 0 badRecord = .error (.missingField "event_type")
    ∧ (runCycle "run-2" 0 1 (.ok [badRecord]) ⟨[], []⟩).run.status = .SUCCESS :=
  ⟨(normalizer_pure_nonfatal 0 badRecord).2.1 rfl,
   (normalizer_pure_nonfatal 0 badRecord).2.2.2.2 "run-2" 0 1 [badRecord] ⟨[], []⟩⟩

/-- C5: When the Fetcher fails with a `FetchError` carrying a partial
count, the cycle finalizes the run FAILED with `rows_fetched` equal to that
partial count and `rows_inserted = 0`, records the error message and the
finish time, and writes nothing: the store is unchanged. -/
theorem fetch_failure_short_circuit (id : String) (t0 t1 : Int) (n : Nat) (msg : String)
    (db : DB) :
    (runCycle id t0 t1 (.fetchError n msg) db).run.status = .FAILED
    ∧ (runCycle id t0 t1 (.fetchError n msg) db).run.rows_fetched = n
    ∧ (runCycle id t0 t1 (.fetchError n msg) db).run.rows_inserted = 0
    ∧ (runCycle id t0 t1 (.fetchError n msg) db).run.error_message = some msg
    ∧ (runCycle id t0 t1 (.fetchError n msg) db).run.finished_at = some t1
    ∧ (runCycle id t0 t1 (.fetchError n msg) db).db = db :=
  ⟨rfl, rfl, rfl, rfl, rfl, rfl⟩

/-- C6: In `v_hourly_activity_with_avg`, every row's `total_events` is the
number of clean events in its hour bucket; `overall_avg` is the arithmetic
mean of `total_events` over all hour-bucket rows; `is_anomaly` is TRUE iff
`total_events` strictly exceeds `1.8` (i.e. `9/5`) times that mean — a
bucket exactly at the threshold is not flagged; and every hour bucket
present in `events_clean` has exactly one row. -/
theorem hourly_anomaly_view_correct (T : List CleanRow) (row : HourlyAvgRow)
    (hrow : row ∈ v_hourly_activity_with_avg T) :
    row.total_events = T.countP (fun e => decide (e.hour_bucket = row.hour_bucket))
    ∧ row.overall_avg
        = (((v_hourly_activity_with_avg T).map HourlyAvgRow.total_events).sum : ℚ)
            / ((v_hourly_activity_with_avg T).length : ℚ)
    ∧ (row.is_anomaly = true ↔ row.overall_avg * (9/5) < (row.total_events : ℚ))
    ∧ ((row.total_events : ℚ) = row.overall_avg * (9/5) → row.is_anomaly = false)
    ∧ (∀ hb, hb ∈ T.map CleanRow.hour_bucket →
        ∃ r ∈ v_hourly_activity_with_avg T, r.hour_bucket = hb)
    ∧ ((v_hourly_activity_with_avg T).map HourlyAvgRow.hour_bucket).Nodup := by
  have hperm : List.Perm (v_hourly_activity_with_avg T)
      ((hourlyGroups T).map (mkHourlyRow (hourlyAvg T))) :=
    List.perm_insertionSort _ _
  obtain ⟨p, hp, hpe⟩ := List.mem_map.mp (hperm.mem_iff.mp hrow)
  subst hpe
  refine ⟨?_, ?_, ?_, ?_, ?_, ?_⟩
  · exact groupCount_mem CleanRow.hour_bucket T p hp
  · have hsum : ((v_hourly_activity_with_avg T).map HourlyAvgRow.total_events).sum
        = ((hourlyGroups T).map Prod.snd).sum := by
      rw [(hperm.map HourlyAvgRow.total_events).sum_eq, List.map_map]
      rfl
    have hlen : (v_hourly_activity_with_avg T).length = (hourlyGroups T).length := by
      rw [hperm.length_eq, List.length_map]
    rw [hsum, hlen]
    rfl
  · simp [mkHourlyRow]
  · intro heq
    simp only [mkHourlyRow] at heq ⊢
    rw [decide_eq_false_iff_not]
    rw [heq]
    exact lt_irrefl _
  · intro hb hmem
    have hd : hb ∈ (T.map CleanRow.hour_bucket).dedup := List.mem_dedup.mpr hmem
    have hmem2 : (hb, T.countP (fun e => decide (CleanRow.hour_bucket e = hb)))
        ∈ hourlyGroups T :=
      List.mem_map_of_mem _ hd
    exact ⟨mkHourlyRow (hourlyAvg T) (hb, _),
      hperm.mem_iff.mpr (List.mem_map_of_mem _ hmem2), rfl⟩
  · have hkeys : ((hourlyGroups T).map (mkHourlyRow (hourlyAvg T))).map
        HourlyAvgRow.hour_bucket = (T.map CleanRow.hour_bucket).dedup := by
      rw [List.map_map]
      exact groupCount_keys CleanRow.hour_bucket T
    exact ((hperm.map HourlyAvgRow.hour_bucket).nodup_iff).mpr
      (hkeys ▸ List.nodup_dedup _)

theorem hourly_anomaly_view_correct_witness :
    (mkHourlyRow (hourlyAvg sampleClean) (7200, 2)).total_events
        = sampleClean.countP (fun e =>
            decide (e.hour_bucket = (mkHourlyRow (hourlyAvg sampleClean) (7200, 2)).hour_bucket))
    ∧ (mkHourlyRow (hourlyAvg sampleClean) (7200, 2)).overall_avg
        = (((v_hourly_activity_with_avg sampleClean).map HourlyAvgRow.total_events).sum : ℚ)
            / ((v_hourly_activity_with_avg sampleClean).length : ℚ)
    ∧ ((mkHourlyRow (hourlyAvg sampleClean) (7200, 2)).is_anomaly = true
        ↔ (mkHourlyRow (hourlyAvg sampleClean) (7200, 2)).overall_avg * (9/5)
            < ((mkHourlyRow (hourlyAvg sampleClean) (7200, 2)).total_events : ℚ))
    ∧ (((mkHourlyRow (hourlyAvg sampleClean) (7200, 2)).total_events : ℚ)
          = (mkHourlyRow (hourlyAvg sampleClean) (7200, 2)).overall_avg * (9/5)
        → (mkHourlyRow (hourlyAvg sampleClean) (7200, 2)).is_anomaly = false)
    ∧ (∀ hb, hb ∈ sampleClean.map CleanRow.hour_bucket →
        ∃ r ∈ v_hourly_activity_with_avg sampleClean, r.hour_bucket = hb)
    ∧ ((v_hourly_activity_with_avg sampleClean).map HourlyAvgRow.hour_bucket).Nodup :=
  hourly_anomaly_view_correct sampleClean (mkHourlyRow (hourlyAvg sampleClean) (7200, 2))
    ((List.mem_insertionSort _).mpr (List.mem_map_of_mem _ (by decide)))

/-- C7: Each aggregation view is a correct grouped count over
`events_clean`: `v_events_per_hour` has exactly one row per distinct
`hour_bucket` (no duplicate keys, and a key appears iff some clean event
has it) whose count is the number of events in that bucket, sorted by
`hour_bucket` ascending; `v_event_type_distribution`, `v_top_repos` and
`v_top_actors` likewise group by `event_type`, `repo_name` and
`actor_login`, each sorted by the count descending. -/
theorem aggregation_views_correct (T : List CleanRow) :
    (∀ p ∈ v_events_per_hour T, p.2 = T.countP (fun e => decide (e.hour_bucket = p.1)))
    ∧ ((v_events_per_hour T).map Prod.fst).Nodup
    ∧ (∀ k, k ∈ (v_events_per_hour T).map Prod.fst ↔ k ∈ T.map CleanRow.hour_bucket)
    ∧ List.Sorted (fun a b : Int × Nat => a.1 ≤ b.1) (v_events_per_hour T)
    ∧ (∀ p ∈ v_event_type_distribution T,
        p.2 = T.countP (fun e => decide (e.event_type = p.1)))
    ∧ ((v_event_type_distribution T).map Prod.fst).Nodup
    ∧ (∀ k, k ∈ (v_event_type_distribution T).map Prod.fst ↔ k ∈ T.map CleanRow.event_type)
    ∧ List.Sorted (fun a b : String × Nat => b.2 ≤ a.2) (v_event_type_distribution T)
    ∧ (∀ p ∈ v_top_repos T, p.2 = T.countP (fun e => decide (e.repo_name = p.1)))
    ∧ ((v_top_repos T).map Prod.fst).Nodup
    ∧ (∀ k, k ∈ (v_top_repos T).map Prod.fst ↔ k ∈ T.map CleanRow.repo_name)
    ∧ List.Sorted (fun a b : Option String × Nat => b.2 ≤ a.2) (v_top_repos T)
    ∧ (∀ p ∈ v_top_actors T, p.2 = T.countP (fun e => decide (e.actor_login = p.1)))
    ∧ ((v_top_actors T).map Prod.fst).Nodup
    ∧ (∀ k, k ∈ (v_top_actors T).map Prod.fst ↔ k ∈ T.map CleanRow.actor_login)
    ∧ List.Sorted (fun a b : Option String × Nat => b.2 ≤ a.2) (v_top_actors T) :=
  ⟨fun p hp => sortedView_counts CleanRow.hour_bucket _ T p hp,
   sortedView_keys_nodup CleanRow.hour_bucket _ T,
   fun k => sortedView_keys_mem CleanRow.hour_bucket _ T k,
   sorted_insertionSort_of (fun a b : Int × Nat => a.1 ≤ b.1)
     (fun a b => le_total a.1 b.1) (fun _ _ _ h1 h2 => le_trans h1 h2) _,
   fun p hp => sortedView_counts CleanRow.event_type _ T p hp,
   sortedView_keys_nodup CleanRow.event_type _ T,
   fun k => sortedView_keys_mem CleanRow.event_type _ T k,
   sorted_insertionSort_of (fun a b : String × Nat => b.2 ≤ a.2)
     (fun a b => le_total b.2 a.2) (fun _ _ _ h1 h2 => le_trans h2 h1) _,
   fun p hp => sortedView_counts CleanRow.repo_name _ T p hp,
   sortedView_keys_nodup CleanRow.repo_name _ T,
   fun k => sortedView_keys_mem CleanRow.repo_name _ T k,
   sorted_insertionSort_of (fun a b : Option String × Nat => b.2 ≤ a.2)
     (fun a b => le_total b.2 a.2) (fun _ _ _ h1 h2 => le_trans h2 h1) _,
   fun p hp => sortedView_counts CleanRow.actor_login _ T p hp,
   sortedView_keys_nodup CleanRow.actor_login _ T,
   fun k => sortedView_keys_mem CleanRow.actor_login _ T k,
   sorted_insertionSort_of (fun a b : Option String × Nat => b.2 ≤ a.2)
     (fun a b => le_total b.2 a.2) (fun _ _ _ h1 h2 => le_trans h2 h1) _⟩

theorem aggregation_views_correct_witness :
    (7200, 2).2 = sampleClean.countP (fun e => decide (e.hour_bucket = ((7200 : Int), 2).1))
    ∧ ((some "octo/repo", 2).2
        = sampleClean.countP (fun e => decide (e.repo_name = (some "octo/repo", 2).1))) :=
  ⟨(aggregation_views_correct sampleClean).1 (7200, 2) (by decide),
   (aggregation_views_correct sampleClean).2.2.2.2.2.2.2.2.1 (some "octo/repo", 2) (by decide)⟩

/-- C8: `getJSON` returns the parsed JSON body when the response status is
ok, and otherwise reads the body text and throws an `Error` whose message
contains the HTTP status code, the request path and the body text — it
never returns a value for a non-ok response, so callers either get parsed
data or an exception. -/
theorem getJSON_ok_or_throws {α : Type} (parseJson : String → Except String α)
    (path : String) (res : HttpResponse) :
    (respOk res = true → getJSON parseJson path res = parseJson res.body)
    ∧ (respOk res = false →
        ∃ msg, getJSON parseJson path res = .error msg
          ∧ containsStr (toString res.status) msg
          ∧ containsStr path msg
          ∧ containsStr res.body msg
          ∧ ∀ v, getJSON parseJson path res ≠ .ok v) := by
  constructor
  · intro h
    unfold getJSON
    rw [if_pos h]
  · intro h
    refine ⟨"HTTP " ++ toString res.status ++ " " ++ path ++ ": " ++ res.body,
      ?_, ?_, ?_, ?_, ?_⟩
    · unfold getJSON
      rw [if_neg (by simp [h])]
    · exact ⟨"HTTP ", " " ++ path ++ ": " ++ res.body, by simp [String.append_assoc]⟩
    · exact ⟨"HTTP " ++ toString res.status ++ " ", ": " ++ res.body,
        by simp [String.append_assoc]⟩
    · exact ⟨"HTTP " ++ toString res.status ++ " " ++ path ++ ": ", "",
        by simp [String.append_assoc]⟩
    · intro v hv
      unfold getJSON at hv
      rw [if_neg (by simp [h])] at hv
      cases hv

theorem getJSON_ok_or_throws_witness :
    ∃ msg, getJSON (fun _ => Except.ok (0 : Nat)) "/metrics/top-repos" ⟨404, "not found"⟩
        = .error msg
      ∧ containsStr (toString (404 : Nat)) msg
      ∧ containsStr "/metrics/top-repos" msg
      ∧ containsStr "not found" msg
      ∧ ∀ v, getJSON (fun _ => Except.ok (0 : Nat)) "/metrics/top-repos" ⟨404, "not found"⟩
          ≠ .ok v :=
  (getJSON_ok_or_throws (fun _ => Except.ok (0 : Nat)) "/metrics/top-repos"
    ⟨404, "not found"⟩).2 rfl

/-- C9: The dashboard loads its five metrics endpoints with `Promise.all`:
if any single request rejects, every panel ends with `loading = false`, the
same error message, and no data — including panels whose own request
succeeded — and only when all five succeed does any panel receive data. -/
theorem dashboard_all_or_nothing {α : Type} (r e a h pr : Except String α) :
    (((∃ m, r = .error m) ∨ (∃ m, e = .error m) ∨ (∃ m, a = .error m)
        ∨ (∃ m, h = .error m) ∨ (∃ m, pr = .error m)) →
      ∃ msg, loadDashboard r e a h pr =
        ⟨⟨false, some msg, none⟩, ⟨false, some msg, none⟩, ⟨false, some msg, none⟩,
         ⟨false, some msg, none⟩, ⟨false, some msg, none⟩⟩)
    ∧ (∀ v1 v2 v3 v4 v5, r = .ok v1 → e = .ok v2 → a = .ok v3 → h = .ok v4 → pr = .ok v5 →
        loadDashboard r e a h pr =
          ⟨⟨false, none, some v1⟩, ⟨false, none, some v2⟩, ⟨false, none, some v3⟩,
           ⟨false, none, some v4⟩, ⟨false, none, some v5⟩⟩) := by
  constructor
  · intro hdisj
    rcases r with m1 | v1
    · exact ⟨m1, rfl⟩
    rcases e with m2 | v2
    · exact ⟨m2, rfl⟩
    rcases a with m3 | v3
    · exact ⟨m3, rfl⟩
    rcases h with m4 | v4
    · exact ⟨m4, rfl⟩
    rcases pr with m5 | v5
    · exact ⟨m5, rfl⟩
    rcases hdisj with ⟨m, hm⟩ | ⟨m, hm⟩ | ⟨m, hm⟩ | ⟨m, hm⟩ | ⟨m, hm⟩ <;> cases hm
  · intro v1 v2 v3 v4 v5 h1 h2 h3 h4 h5
    subst h1; subst h2; subst h3; subst h4; subst h5
    rfl

theorem dashboard_all_or_nothing_witness :
    ∃ msg, loadDashboard (Except.error "HTTP 500 /metrics/top-repos: boom")
        (Except.ok [(1 : Nat)]) (Except.ok [2]) (Except.ok [3]) (Except.ok [4]) =
      ⟨⟨false, some msg, none⟩, ⟨false, some msg, none⟩, ⟨false, some msg, none⟩,
       ⟨false, some msg, none⟩, ⟨false, some msg, none⟩⟩ :=
  (dashboard_all_or_nothing (Except.error "HTTP 500 /metrics/top-repos: boom")
    (Except.ok [(1 : Nat)]) (Except.ok [2]) (Except.ok [3]) (Except.ok [4])).1
    (Or.inl ⟨"HTTP 500 /metrics/top-repos: boom", rfl⟩)

/-- C10: In the Admin table browser the pagination offset is always a
non-negative multiple of `limit = 50` after any sequence of user actions
from the initial state; it starts at 0; selecting a table or logging out
resets it to 0; Prev is a no-op (disabled) at offset 0 and otherwise sets
`max 0 (offset - 50)`; Next is a no-op (disabled) when the last fetched
page has fewer than 50 rows and otherwise adds 50. -/
theorem admin_pagination_invariant (ρ : Type) (storedAuth : Bool)
    (acts : List (AdminAction ρ)) :
    (0 ≤ (acts.foldl adminStep (initAdmin ρ storedAuth)).offset
      ∧ adminLimit ∣ (acts.foldl adminStep (initAdmin ρ storedAuth)).offset)
    ∧ (initAdmin ρ storedAuth).offset = 0
    ∧ (∀ s : AdminState ρ, (adminStep s .logout).offset = 0)
    ∧ (∀ (s : AdminState ρ) (n : String), (adminStep s (.selectTable n)).offset = 0)
    ∧ (∀ ts : List String, ∀ s : AdminState ρ, (adminStep s (.tablesLoaded ts)).offset = 0)
    ∧ (∀ s : AdminState ρ, s.offset = 0 → adminStep s .prevClick = s)
    ∧ (∀ s : AdminState ρ, s.offset ≠ 0 →
        (adminStep s .prevClick).offset = max 0 (s.offset - adminLimit))
    ∧ (∀ s : AdminState ρ, s.rows.length < 50 → adminStep s .nextClick = s)
    ∧ (∀ s : AdminState ρ, ¬ s.rows.length < 50 →
        (adminStep s .nextClick).offset = s.offset + adminLimit) := by
  have hinv := adminFold_offset_inv acts (initAdmin ρ storedAuth) ⟨le_refl 0, rfl⟩
  refine ⟨⟨hinv.1, Int.dvd_of_emod_eq_zero hinv.2⟩, rfl,
    fun s => rfl, fun s n => rfl, fun ts s => rfl, ?_, ?_, ?_, ?_⟩
  · intro s h0
    simp [adminStep, h0]
  · intro s h0
    simp [adminStep, h0]
  · intro s h0
    simp [adminStep, h0]
  · intro s h0
    simp [adminStep, h0]

theorem admin_pagination_invariant_witness :
    (adminStep adminAt100 .prevClick).offset = max 0 (adminAt100.offset - adminLimit)
    ∧ adminStep adminAt100 .nextClick = adminAt100
    ∧ 0 ≤ (([.login, .prevClick, .nextClick] : List (AdminAction Unit)).foldl adminStep
          (initAdmin Unit false)).offset
      ∧ adminLimit ∣ (([.login, .prevClick, .nextClick] : List (AdminAction Unit)).foldl
          adminStep (initAdmin Unit false)).offset :=
  ⟨(admin_pagination_invariant Unit true []).2.2.2.2.2.2.1 adminAt100 (by decide),
   (admin_pagination_invariant Unit true []).2.2.2.2.2.2.2.1 adminAt100 (by decide),
   (admin_pagination_invariant Unit false [.login, .prevClick, .nextClick]).1⟩

end GitHubEventsPipeline
